import Mathlib

/-!
Verification of the columnar array-builder core (`cpp/src/arrow/builder.h`).

The definitions below are a shallow embedding of the builder classes of
`builder.h`.  Machine integers are modelled as `Nat`/`Int` (with explicit
wrap-around where the C++ code performs a narrowing cast), byte buffers as
functions `Nat → Nat` (byte index to byte value) or `List Nat`, and each
C++ method that mutates `this` becomes a function from the builder state to
a new builder state (paired with an `Except`-style status when the method
returns an `arrow::Status`).  Methods whose bodies live in `builder.cc`
(which is not part of the source tree) are modelled from the specification
and marked as such in their doc comments.
-/

namespace ArrowBuilder

/-- Error kinds of `arrow::Status` relevant to the builder core. -/
inductive BuilderError where
  | invalid (msg : String)
  | outOfMemory
  deriving Repr, DecidableEq

/-- A fallible builder operation returns a status; `Except.ok ()` models
`Status::OK()`. -/
abbrev Status := Except BuilderError Unit

/-- Whether a status is an `Invalid` error. -/
def Status.isInvalid : Status → Bool
  | .error (.invalid _) => true
  | _ => false

/-- `BitUtil::kBitmask[i]`: the byte with (only) bit `i` set. -/
def kBitmask (i : Nat) : Nat := 1 <<< i

/-- `BitUtil::kFlippedBitmask[i]`: the byte with all bits but bit `i` set. -/
def kFlippedBitmask (i : Nat) : Nat := 255 ^^^ (1 <<< i)

/-- `BitUtil::SetBit(data, i)`: set bit `i % 8` of byte `i / 8`. -/
def setBit (bm : Nat → Nat) (i : Nat) : Nat → Nat :=
  fun j => if j = i / 8 then bm (i / 8) ||| kBitmask (i % 8) else bm j

/-- `BitUtil::ClearBit(data, i)`: clear bit `i % 8` of byte `i / 8`. -/
def clearBit (bm : Nat → Nat) (i : Nat) : Nat → Nat :=
  fun j => if j = i / 8 then bm (i / 8) &&& kFlippedBitmask (i % 8) else bm j

/-- `BitUtil::GetBit(data, i)`: read bit `i % 8` of byte `i / 8`. -/
def getBit (bm : Nat → Nat) (i : Nat) : Bool := (bm (i / 8)).testBit (i % 8)

/-- Number of zero (null) bits among positions `0 .. len` of a bitmap. -/
def zeroBits (bm : Nat → Nat) (len : Nat) : Nat :=
  (List.range len).countP (fun i => !(getBit bm i))

theorem div8_mod8_inj {i j : Nat} (hd : j / 8 = i / 8) (hm : j % 8 = i % 8) :
    j = i := by
  have hi := Nat.div_add_mod i 8
  have hj := Nat.div_add_mod j 8
  omega

theorem getBit_setBit (bm : Nat → Nat) (i j : Nat) :
    getBit (setBit bm i) j = (decide (j = i) || getBit bm j) := by
  have hmi : i % 8 < 8 := Nat.mod_lt _ (by norm_num)
  have hmj : j % 8 < 8 := Nat.mod_lt _ (by norm_num)
  unfold getBit setBit kBitmask
  by_cases hb : j / 8 = i / 8
  · rw [if_pos hb, hb, Nat.testBit_or, Nat.shiftLeft_eq, Nat.one_mul,
      Nat.testBit_two_pow]
    by_cases hij : j = i
    · subst hij; simp
    · have hne : ¬ (i % 8 = j % 8) := fun hm => hij (div8_mod8_inj hb hm.symm)
      simp [hij, hne]
  · rw [if_neg hb]
    have hij : ¬ (j = i) := fun h => hb (by rw [h])
    simp [hij]

theorem getBit_clearBit (bm : Nat → Nat) (i j : Nat) :
    getBit (clearBit bm i) j = (!(decide (j = i)) && getBit bm j) := by
  have hmi : i % 8 < 8 := Nat.mod_lt _ (by norm_num)
  have hmj : j % 8 < 8 := Nat.mod_lt _ (by norm_num)
  unfold getBit clearBit kFlippedBitmask
  by_cases hb : j / 8 = i / 8
  · rw [if_pos hb, hb, Nat.testBit_and, Nat.testBit_xor, Nat.shiftLeft_eq,
      Nat.one_mul, Nat.testBit_two_pow]
    have h255 : (255 : Nat).testBit (j % 8) = true := by
      have : (255 : Nat) = 2 ^ 8 - 1 := by norm_num
      rw [this, Nat.testBit_two_pow_sub_one]
      simpa using hmj
    by_cases hij : j = i
    · subst hij; simp [h255]
    · have hne : ¬ (i % 8 = j % 8) := fun hm => hij (div8_mod8_inj hb hm.symm)
      simp [hij, hne, h255]
  · rw [if_neg hb]
    have hij : ¬ (j = i) := fun h => hb (by rw [h])
    simp [hij]

/-- Shared state of `arrow::ArrayBuilder` (builder.h lines 209-219): the
null bitmap (as a byte map), the null count, the current length and the
current capacity.  The `type_`, `pool_` and `children_` members carry no
state relevant to the verified claims. -/
structure ABCore where
  length : Nat
  null_count : Nat
  capacity : Nat
  bm : Nat → Nat

/-- `ArrayBuilder::UnsafeAppendToBitmap(bool is_valid)` (builder.h lines
147-154): on a valid element set the bit at index `length_` (the invalid
branch does not clear the bit, it relies on the bitmap being
zero-initialised), on an invalid element increment `null_count_`; then
increment `length_`. -/
def ABCore.unsafeAppendToBitmap (s : ABCore) (isValid : Bool) : ABCore :=
  if isValid then
    { s with bm := setBit s.bm s.length, length := s.length + 1 }
  else
    { s with null_count := s.null_count + 1, length := s.length + 1 }

/-- `ArrayBuilder::CheckCapacity(new_capacity, old_capacity)` (builder.h
lines 199-207): `Invalid` when the new capacity is negative or smaller than
the old capacity, `OK` otherwise. -/
def checkCapacity (newCapacity oldCapacity : Int) : Status :=
  if newCapacity < 0 then .error (.invalid "Resize capacity must be positive")
  else if newCapacity < oldCapacity then .error (.invalid "Resize cannot downsize")
  else .ok ()

/-- Modelled from the spec: `ArrayBuilder::Resize` (§4.1; its body is in
`builder.cc`, which is not part of the source tree) checks the new capacity
against the current one with `CheckCapacity` and, on success, reallocates
the buffers so that the builder's capacity becomes the requested value. -/
def ABCore.resize (s : ABCore) (newCapacity : Int) : Status × ABCore :=
  match checkCapacity newCapacity s.capacity with
  | .error e => (.error e, s)
  | .ok _ => (.ok (), { s with capacity := newCapacity.toNat })

/-- State of `arrow::NullBuilder` (builder.h lines 228-242): it stores no
buffers at all, only the inherited length and null count. -/
structure NullState where
  length : Nat
  null_count : Nat

/-- `NullBuilder::AppendNull` (builder.h lines 233-237): increment
`null_count_` and `length_`, return `Status::OK()`. -/
def NullState.appendNull (s : NullState) : Status × NullState :=
  (.ok (), { length := s.length + 1, null_count := s.null_count + 1 })

/-- `NullBuilder::Append(std::nullptr_t)` (builder.h line 239): delegates
to `AppendNull`. -/
def NullState.appendNullptr (s : NullState) : Status × NullState :=
  s.appendNull

/-- A freshly constructed `NullBuilder` (length 0, null count 0). -/
def NullState.empty : NullState := { length := 0, null_count := 0 }

/-- Loop state of the iterator overload of
`ArrayBuilder::UnsafeAppendToBitmap(begin, end)` (builder.h lines 156-186):
the current byte offset, the bit offset inside that byte, the byte being
assembled (`bitset`), the bitmap bytes already written back, and the
running null count. -/
structure BitLoopSt where
  byteOff : Nat
  bitOff : Nat
  bitset : Nat
  bm : Nat → Nat
  nulls : Nat

/-- The byte-boundary block of builder.h lines 163-169: when the bit
offset reaches 8, flush `bitset` into the bitmap, advance to the next byte
and reload `bitset` from it. -/
def bitLoopNorm (st : BitLoopSt) : BitLoopSt :=
  if st.bitOff = 8 then
    let bm := fun j => if j = st.byteOff then st.bitset else st.bm j
    { byteOff := st.byteOff + 1, bitOff := 0, bitset := bm (st.byteOff + 1),
      bm := bm, nulls := st.nulls }
  else st

/-- One iteration of the loop body of builder.h lines 162-179: the
byte-boundary block, then set or clear the current bit of `bitset`
(counting a null on clear) and advance the bit offset. -/
def bitLoopStep (v : Bool) (st : BitLoopSt) : BitLoopSt :=
  let st := bitLoopNorm st
  if v then
    { st with bitset := st.bitset ||| kBitmask st.bitOff, bitOff := st.bitOff + 1 }
  else
    { st with bitset := st.bitset &&& kFlippedBitmask st.bitOff,
              nulls := st.nulls + 1, bitOff := st.bitOff + 1 }

/-- The full loop of builder.h lines 162-179 over the validity sequence. -/
def bitLoop (vs : List Bool) (st : BitLoopSt) : BitLoopSt :=
  vs.foldl (fun st v => bitLoopStep v st) st

/-- `ArrayBuilder::UnsafeAppendToBitmap(IterType begin, IterType end)`
(builder.h lines 156-186): run the bit-packing loop starting at bit
position `length_`, write the trailing partial byte back when the final bit
offset is non-zero, and add the number of appended bits to `length_`. -/
def ABCore.unsafeAppendToBitmapIter (s : ABCore) (vs : List Bool) : ABCore :=
  let st0 : BitLoopSt :=
    { byteOff := s.length / 8, bitOff := s.length % 8,
      bitset := s.bm (s.length / 8), bm := s.bm, nulls := s.null_count }
  let st := bitLoop vs st0
  let bm :=
    if st.bitOff ≠ 0 then fun j => if j = st.byteOff then st.bitset else st.bm j
    else st.bm
  { s with bm := bm, null_count := st.nulls, length := s.length + vs.length }

/-- The bitmap a loop state denotes: the bytes written back, with the byte
under assembly replaced by `bitset`. -/
def BitLoopSt.eff (st : BitLoopSt) : Nat → Nat :=
  fun j => if j = st.byteOff then st.bitset else st.bm j

/-- The absolute bit position a loop state is about to write. -/
def BitLoopSt.pos (st : BitLoopSt) : Nat := st.byteOff * 8 + st.bitOff

theorem bitLoopNorm_bitOff (st : BitLoopSt) (h : st.bitOff ≤ 8) :
    (bitLoopNorm st).bitOff < 8 := by
  unfold bitLoopNorm
  split
  · simp
  · simpa using Nat.lt_of_le_of_ne h (by assumption)

theorem bitLoopNorm_pos (st : BitLoopSt) : (bitLoopNorm st).pos = st.pos := by
  unfold bitLoopNorm BitLoopSt.pos
  split
  · simp only
    omega
  · rfl

theorem bitLoopNorm_nulls (st : BitLoopSt) : (bitLoopNorm st).nulls = st.nulls := by
  unfold bitLoopNorm
  split <;> rfl

theorem bitLoopNorm_eff (st : BitLoopSt) : (bitLoopNorm st).eff = st.eff := by
  unfold bitLoopNorm BitLoopSt.eff
  split
  · funext j
    simp only
    by_cases h1 : j = st.byteOff + 1
    · simp [h1]
    · by_cases h0 : j = st.byteOff <;> simp [h0, h1]
  · rfl

theorem bitLoopStep_spec (v : Bool) (st : BitLoopSt) (h : st.bitOff ≤ 8) :
    (bitLoopStep v st).bitOff ≤ 8 ∧ 1 ≤ (bitLoopStep v st).bitOff ∧
    (bitLoopStep v st).pos = st.pos + 1 ∧
    (bitLoopStep v st).nulls = st.nulls + (if v then 0 else 1) ∧
    (bitLoopStep v st).eff =
      (if v then setBit st.eff st.pos else clearBit st.eff st.pos) := by
  have hb := bitLoopNorm_bitOff st h
  have hp := bitLoopNorm_pos st
  have hn := bitLoopNorm_nulls st
  have he := bitLoopNorm_eff st
  set t := bitLoopNorm st with ht
  have hdiv : t.pos / 8 = t.byteOff := by
    unfold BitLoopSt.pos; omega
  have hmod : t.pos % 8 = t.bitOff := by
    unfold BitLoopSt.pos; omega
  have heffByte : t.eff t.byteOff = t.bitset := by
    unfold BitLoopSt.eff; simp
  cases v with
  | true =>
    have h1 : (bitLoopStep true st).bitOff = t.bitOff + 1 := rfl
    have h2 : (bitLoopStep true st).byteOff = t.byteOff := rfl
    have h3 : (bitLoopStep true st).nulls = t.nulls := rfl
    have h4 : (bitLoopStep true st).bitset = t.bitset ||| kBitmask t.bitOff := rfl
    have h5 : (bitLoopStep true st).bm = t.bm := rfl
    refine ⟨by omega, by omega, ?_, by simpa [h3] using hn, ?_⟩
    · unfold BitLoopSt.pos at hp ⊢
      rw [h1, h2]
      omega
    · rw [← he, ← hp, if_pos rfl]
      funext j
      unfold BitLoopSt.eff setBit
      rw [h2, h4, h5, hdiv, hmod]
      by_cases hj : j = t.byteOff <;> simp [hj]
  | false =>
    have h1 : (bitLoopStep false st).bitOff = t.bitOff + 1 := rfl
    have h2 : (bitLoopStep false st).byteOff = t.byteOff := rfl
    have h3 : (bitLoopStep false st).nulls = t.nulls + 1 := rfl
    have h4 : (bitLoopStep false st).bitset = t.bitset &&& kFlippedBitmask t.bitOff := rfl
    have h5 : (bitLoopStep false st).bm = t.bm := rfl
    refine ⟨by omega, by omega, ?_, by simpa [h3] using hn, ?_⟩
    · unfold BitLoopSt.pos at hp ⊢
      rw [h1, h2]
      omega
    · rw [← he, ← hp, if_neg (by simp : ¬ (false = true))]
      funext j
      unfold BitLoopSt.eff clearBit
      rw [h2, h4, h5, hdiv, hmod]
      by_cases hj : j = t.byteOff <;> simp [hj]

theorem bitLoop_spec (vs : List Bool) (st : BitLoopSt) (h : st.bitOff ≤ 8) :
    (bitLoop vs st).bitOff ≤ 8 ∧
    (bitLoop vs st).pos = st.pos + vs.length ∧
    (bitLoop vs st).nulls = st.nulls + vs.count false ∧
    (vs ≠ [] → 1 ≤ (bitLoop vs st).bitOff) ∧
    (vs = [] → bitLoop vs st = st) ∧
    ∀ q, getBit (bitLoop vs st).eff q =
      if st.pos ≤ q ∧ q < st.pos + vs.length then vs.getD (q - st.pos) false
      else getBit st.eff q := by
  induction vs generalizing st with
  | nil =>
    refine ⟨h, by simp [bitLoop], by simp [bitLoop], by simp, fun _ => rfl, ?_⟩
    intro q
    have hnil : bitLoop [] st = st := rfl
    rw [hnil, if_neg (by intro hc; simp at hc; omega)]
  | cons v rest ih =>
    have hstep := bitLoopStep_spec v st h
    obtain ⟨hOff, hOne, hPos, hNulls, hEff⟩ := hstep
    have hfold : bitLoop (v :: rest) st = bitLoop rest (bitLoopStep v st) := rfl
    obtain ⟨iOff, iPos, iNulls, iOne, _, iBits⟩ := ih (bitLoopStep v st) hOff
    rw [hfold]
    refine ⟨iOff, ?_, ?_, ?_, by simp, ?_⟩
    · rw [iPos, hPos, List.length_cons]
      omega
    · rw [iNulls, hNulls]
      cases v <;> (simp [List.count_cons]; try omega)
    · intro hne
      rcases rest with _ | ⟨r, rs⟩
      · simpa [bitLoop] using hOne
      · exact iOne (by simp)

    · intro q
      have hbit : ∀ q, getBit (bitLoopStep v st).eff q =
          if q = st.pos then v else getBit st.eff q := by
        intro q
        rw [hEff]
        cases v with
        | true =>
          rw [if_pos rfl, getBit_setBit]
          by_cases hq : q = st.pos <;> simp [hq]
        | false =>
          rw [if_neg (by simp : ¬ (false = true)), getBit_clearBit]
          by_cases hq : q = st.pos <;> simp [hq]
      rw [iBits q, hPos]
      by_cases hq : q = st.pos
      · subst hq
        rw [if_neg (by omega), hbit st.pos, if_pos rfl,
          if_pos ⟨Nat.le_refl _, by rw [List.length_cons]; omega⟩]
        rw [Nat.sub_self, List.getD_cons_zero]
      · by_cases hlo : st.pos + 1 ≤ q
        · by_cases hhi : q < st.pos + 1 + rest.length
          · rw [if_pos ⟨hlo, hhi⟩,
              if_pos ⟨by omega, by rw [List.length_cons]; omega⟩]
            have hy : q - st.pos = (q - (st.pos + 1)) + 1 := by omega
            rw [hy, List.getD_cons_succ]
          · rw [if_neg (fun hc => hhi hc.2), hbit q, if_neg hq,
              if_neg (by rw [List.length_cons]; intro hc; omega)]
        · rw [if_neg (fun hc => hlo hc.1), hbit q, if_neg hq,
            if_neg (by rw [List.length_cons]; intro hc; omega)]

theorem unsafeAppendToBitmapIter_spec (s : ABCore) (vs : List Bool) :
    (s.unsafeAppendToBitmapIter vs).length = s.length + vs.length ∧
    (s.unsafeAppendToBitmapIter vs).null_count = s.null_count + vs.count false ∧
    (s.unsafeAppendToBitmapIter vs).capacity = s.capacity ∧
    ∀ q, getBit (s.unsafeAppendToBitmapIter vs).bm q =
      if s.length ≤ q ∧ q < s.length + vs.length then vs.getD (q - s.length) false
      else getBit s.bm q := by
  set st0 : BitLoopSt :=
    { byteOff := s.length / 8, bitOff := s.length % 8,
      bitset := s.bm (s.length / 8), bm := s.bm, nulls := s.null_count } with hst0
  have h0 : st0.bitOff ≤ 8 := by
    simp only [hst0]
    omega
  have hpos0 : st0.pos = s.length := by
    simp only [hst0, BitLoopSt.pos]
    omega
  have heff0 : st0.eff = s.bm := by
    funext j
    simp only [hst0, BitLoopSt.eff]
    by_cases hj : j = s.length / 8 <;> simp [hj]
  obtain ⟨lOff, lPos, lNulls, lOne, lNil, lBits⟩ := bitLoop_spec vs st0 h0
  have hlen : (s.unsafeAppendToBitmapIter vs).length = s.length + vs.length := rfl
  have hcap : (s.unsafeAppendToBitmapIter vs).capacity = s.capacity := rfl
  have hnc : (s.unsafeAppendToBitmapIter vs).null_count = (bitLoop vs st0).nulls := rfl
  refine ⟨hlen, ?_, hcap, ?_⟩
  · rw [hnc, lNulls]
  · intro q
    have hbm : (s.unsafeAppendToBitmapIter vs).bm =
        (if (bitLoop vs st0).bitOff ≠ 0 then
          fun j => if j = (bitLoop vs st0).byteOff then (bitLoop vs st0).bitset
                   else (bitLoop vs st0).bm j
         else (bitLoop vs st0).bm) := rfl
    rw [hbm]
    by_cases hz : (bitLoop vs st0).bitOff ≠ 0
    · rw [if_pos hz]
      have : (fun j => if j = (bitLoop vs st0).byteOff then (bitLoop vs st0).bitset
                       else (bitLoop vs st0).bm j) = (bitLoop vs st0).eff := rfl
      rw [this, lBits q, hpos0, heff0]
    · rw [if_neg hz]
      push_neg at hz
      have hvs : vs = [] := by
        by_contra hne
        have := lOne hne
        omega
      subst hvs
      rw [lNil rfl, if_neg (by intro hc; simp at hc; omega)]

theorem zeroBits_succ (bm : Nat → Nat) (l : Nat) :
    zeroBits bm (l + 1) = zeroBits bm l + (if getBit bm l then 0 else 1) := by
  unfold zeroBits
  rw [List.range_succ, List.countP_append]
  cases h : getBit bm l <;> simp [List.countP_cons, h]

theorem zeroBits_congr (bm1 bm2 : Nat → Nat) (len : Nat)
    (h : ∀ i, i < len → getBit bm1 i = getBit bm2 i) :
    zeroBits bm1 len = zeroBits bm2 len := by
  unfold zeroBits
  refine List.countP_congr ?_
  intro i hi
  rw [h i (List.mem_range.mp hi)]

theorem zeroBits_append_of_getD (vs : List Bool) (bm : Nat → Nat) (l : Nat)
    (h : ∀ k, k < vs.length → getBit bm (l + k) = vs.getD k false) :
    zeroBits bm (l + vs.length) = zeroBits bm l + vs.count false := by
  induction vs using List.reverseRecOn with
  | nil => simp
  | append_singleton xs x ih =>
    have hx : getBit bm (l + xs.length) = x := by
      have hh := h xs.length (by simp)
      rwa [List.getD_append_right xs [x] false xs.length (Nat.le_refl _),
        Nat.sub_self, List.getD_cons_zero] at hh
    have hxs : ∀ k, k < xs.length → getBit bm (l + k) = xs.getD k false := by
      intro k hk
      rw [h k (by simp; omega), List.getD_append xs [x] false k hk]
    have hlen : (xs ++ [x]).length = xs.length + 1 := by simp
    rw [hlen, ← Nat.add_assoc, zeroBits_succ, ih hxs, hx, List.count_append]
    cases x <;> (simp; try omega)

/-- Claim C4: for every builder, after every successful bitmap-appending
operation `null_count` equals the number of zero bits in
`validity[0 .. length)`; in particular the single-bit append
`UnsafeAppendToBitmap(bool)` increments `null_count` exactly when it
records an invalid element and the iterator-based append increments it by
the number of invalid entries, and both increment `length` by the number
of bits appended.  The hypotheses are the invariant the builder itself
maintains (a zero-initialised bitmap above `length`, kept by `Resize`). -/
theorem claim_C4_null_count_matches_bitmap (s : ABCore)
    (hInv : s.null_count = zeroBits s.bm s.length)
    (hTrail : ∀ i, s.length ≤ i → getBit s.bm i = false) :
    (∀ b : Bool,
      (s.unsafeAppendToBitmap b).length = s.length + 1 ∧
      (s.unsafeAppendToBitmap b).null_count = s.null_count + (if b then 0 else 1) ∧
      (s.unsafeAppendToBitmap b).null_count =
        zeroBits (s.unsafeAppendToBitmap b).bm (s.unsafeAppendToBitmap b).length ∧
      (∀ i, (s.unsafeAppendToBitmap b).length ≤ i →
        getBit (s.unsafeAppendToBitmap b).bm i = false)) ∧
    (∀ vs : List Bool,
      (s.unsafeAppendToBitmapIter vs).length = s.length + vs.length ∧
      (s.unsafeAppendToBitmapIter vs).null_count = s.null_count + vs.count false ∧
      (s.unsafeAppendToBitmapIter vs).null_count =
        zeroBits (s.unsafeAppendToBitmapIter vs).bm (s.unsafeAppendToBitmapIter vs).length ∧
      (∀ i, (s.unsafeAppendToBitmapIter vs).length ≤ i →
        getBit (s.unsafeAppendToBitmapIter vs).bm i = false)) := by
  constructor
  · intro b
    cases b with
    | true =>
      have hlen : (s.unsafeAppendToBitmap true).length = s.length + 1 := rfl
      have hnc : (s.unsafeAppendToBitmap true).null_count = s.null_count := rfl
      have hbm : (s.unsafeAppendToBitmap true).bm = setBit s.bm s.length := rfl
      refine ⟨hlen, by simp [hnc], ?_, ?_⟩
      · rw [hnc, hbm, hlen, zeroBits_succ, getBit_setBit]
        rw [zeroBits_congr (setBit s.bm s.length) s.bm s.length ?side]
        · simp [hInv]
        case side =>
          intro i hi
          rw [getBit_setBit]
          simp [Nat.ne_of_lt hi]
      · intro i hi
        rw [hlen] at hi
        rw [hbm, getBit_setBit]
        have : ¬ (i = s.length) := by omega
        simp [this]
        exact hTrail i (by omega)
    | false =>
      have hlen : (s.unsafeAppendToBitmap false).length = s.length + 1 := rfl
      have hnc : (s.unsafeAppendToBitmap false).null_count = s.null_count + 1 := rfl
      have hbm : (s.unsafeAppendToBitmap false).bm = s.bm := rfl
      refine ⟨hlen, by simp [hnc], ?_, ?_⟩
      · rw [hnc, hbm, hlen, zeroBits_succ, hTrail s.length (Nat.le_refl _), hInv]
        simp
      · intro i hi
        rw [hlen] at hi
        rw [hbm]
        exact hTrail i (by omega)
  · intro vs
    obtain ⟨iLen, iNc, _, iBits⟩ := unsafeAppendToBitmapIter_spec s vs
    refine ⟨iLen, iNc, ?_, ?_⟩
    · rw [iNc, iLen]
      have hsame : zeroBits (s.unsafeAppendToBitmapIter vs).bm s.length =
          zeroBits s.bm s.length := by
        refine zeroBits_congr _ _ _ ?_
        intro i hi
        rw [iBits i, if_neg (by omega)]
      have happ : zeroBits (s.unsafeAppendToBitmapIter vs).bm (s.length + vs.length) =
          zeroBits (s.unsafeAppendToBitmapIter vs).bm s.length + vs.count false := by
        refine zeroBits_append_of_getD vs _ s.length ?_
        intro k hk
        rw [iBits (s.length + k), if_pos ⟨by omega, by omega⟩, Nat.add_sub_cancel_left]
      rw [happ, hsame, hInv]
    · intro i hi
      rw [iLen] at hi
      rw [iBits i, if_neg (by omega)]
      exact hTrail i (by omega)

/-- Concrete instance of `claim_C4_null_count_matches_bitmap`: appending
the validity bits `true, false, true` to a fresh builder. -/
theorem claim_C4_null_count_matches_bitmap_witness :
    ((ABCore.mk 0 0 0 (fun _ => 0)).unsafeAppendToBitmapIter
        [true, false, true]).null_count =
      (ABCore.mk 0 0 0 (fun _ => 0)).null_count + [true, false, true].count false :=
  (((claim_C4_null_count_matches_bitmap (ABCore.mk 0 0 0 (fun _ => 0))
      (by simp [zeroBits])
      (fun i _ => by simp [getBit])).2) [true, false, true]).2.1

/-- State of `arrow::BooleanBuilder` (builder.h lines 586-746): the shared
base state plus a bit-packed data buffer (`data_`/`raw_data_`, modelled as
a byte map). -/
structure BoolState where
  length : Nat
  null_count : Nat
  capacity : Nat
  bm : Nat → Nat
  data : Nat → Nat

/-- Modelled from the spec: `ArrayBuilder::Reserve` (§4.1; its body is in
`builder.cc`, which is not part of the source tree) ensures capacity for
`n` more elements, growing to the next power of two with floor 32 when
needed.  Pool failure is not modelled here: for the boolean-builder claims
the pool is taken as never failing. -/
def BoolState.reserve (s : BoolState) (n : Nat) : BoolState :=
  if s.length + n ≤ s.capacity then s
  else { s with capacity := max 32 (2 ^ Nat.clog 2 (s.length + n)) }

/-- `BooleanBuilder::UnsafeAppend(bool val)` (builder.h lines 621-629):
set the validity bit at `length_`, set or clear the data bit at `length_`,
then increment `length_`. -/
def BoolState.unsafeAppend (s : BoolState) (val : Bool) : BoolState :=
  { s with bm := setBit s.bm s.length,
           data := if val then setBit s.data s.length else clearBit s.data s.length,
           length := s.length + 1 }

/-- `BooleanBuilder::Append(bool val)` (builder.h lines 612-616): reserve
one slot, then `UnsafeAppend`. -/
def BoolState.append (s : BoolState) (val : Bool) : BoolState :=
  (s.reserve 1).unsafeAppend val

/-- `BooleanBuilder::Append(uint8_t val)` (builder.h line 618): delegates
to `Append(val != 0)`. -/
def BoolState.appendByte (s : BoolState) (val : Nat) : BoolState :=
  s.append (val != 0)

/-- `BooleanBuilder::UnsafeAppend(uint8_t val)` (builder.h line 631):
delegates to `UnsafeAppend(val != 0)`. -/
def BoolState.unsafeAppendByte (s : BoolState) (val : Nat) : BoolState :=
  s.unsafeAppend (val != 0)

/-- Claim C7: `BooleanBuilder::UnsafeAppend(b)` sets the validity bit at
index `length`, sets the data bit at index `length` when `b` is true and
clears it when `b` is false, then increments `length` by one; it never
changes `null_count` (and touches no other bit). -/
theorem claim_C7_boolean_unsafe_append (s : BoolState) (b : Bool) :
    (s.unsafeAppend b).length = s.length + 1 ∧
    (s.unsafeAppend b).null_count = s.null_count ∧
    getBit (s.unsafeAppend b).bm s.length = true ∧
    getBit (s.unsafeAppend b).data s.length = b ∧
    (∀ i, i ≠ s.length →
      getBit (s.unsafeAppend b).data i = getBit s.data i ∧
      getBit (s.unsafeAppend b).bm i = getBit s.bm i) := by
  have hbm : (s.unsafeAppend b).bm = setBit s.bm s.length := rfl
  have hdata : (s.unsafeAppend b).data =
      (if b then setBit s.data s.length else clearBit s.data s.length) := rfl
  refine ⟨rfl, rfl, ?_, ?_, ?_⟩
  · rw [hbm, getBit_setBit]
    simp
  · rw [hdata]
    cases b with
    | true => rw [if_pos rfl, getBit_setBit]; simp
    | false => rw [if_neg (by simp : ¬ (false = true)), getBit_clearBit]; simp
  · intro i hi
    constructor
    · rw [hdata]
      cases b with
      | true => rw [if_pos rfl, getBit_setBit]; simp [hi]
      | false => rw [if_neg (by simp : ¬ (false = true)), getBit_clearBit]; simp [hi]
    · rw [hbm, getBit_setBit]
      simp [hi]

/-- Concrete instance of `claim_C7_boolean_unsafe_append`: appending true
to a fresh boolean builder leaves the data bit at index 5 unchanged. -/
theorem claim_C7_boolean_unsafe_append_witness :
    getBit ((BoolState.mk 0 0 0 (fun _ => 0) (fun _ => 0)).unsafeAppend true).data 5
      = getBit (BoolState.mk 0 0 0 (fun _ => 0) (fun _ => 0)).data 5 :=
  ((claim_C7_boolean_unsafe_append (BoolState.mk 0 0 0 (fun _ => 0) (fun _ => 0))
      true).2.2.2.2 5 (by decide)).1

/-- Claim C9: the `uint8_t` overloads of `BooleanBuilder` coerce any
non-zero byte to true and zero to false: `Append(v)` is `Append(v != 0)`
and `UnsafeAppend(v)` is `UnsafeAppend(v != 0)` for every byte `v`, so
every non-zero byte value appends data bit 1. -/
theorem claim_C9_boolean_byte_coercion (s : BoolState) (v : Nat)
    (_hbyte : v < 256) (hnz : v ≠ 0) :
    s.appendByte v = s.append true ∧
    s.unsafeAppendByte v = s.unsafeAppend true ∧
    (∀ w : Nat, s.appendByte w = s.append (w != 0) ∧
      s.unsafeAppendByte w = s.unsafeAppend (w != 0)) ∧
    getBit (s.unsafeAppendByte v).data s.length = true := by
  have hv : (v != 0) = true := by simp [hnz]
  refine ⟨?_, ?_, fun w => ⟨rfl, rfl⟩, ?_⟩
  · show s.append (v != 0) = s.append true
    rw [hv]
  · show s.unsafeAppend (v != 0) = s.unsafeAppend true
    rw [hv]
  · show getBit (s.unsafeAppend (v != 0)).data s.length = true
    rw [hv]
    exact (claim_C7_boolean_unsafe_append s true).2.2.2.1

/-- Concrete instance of `claim_C9_boolean_byte_coercion` at byte value 7
on a fresh boolean builder. -/
theorem claim_C9_boolean_byte_coercion_witness :
    getBit ((BoolState.mk 0 0 0 (fun _ => 0) (fun _ => 0)).unsafeAppendByte 7).data 0
      = true :=
  (claim_C9_boolean_byte_coercion (BoolState.mk 0 0 0 (fun _ => 0) (fun _ => 0)) 7
    (by decide) (by decide)).2.2.2

/-- Claim C10: `NullBuilder::AppendNull` always returns OK and increments
both `null_count` and `length` by exactly one (the null builder owns no
buffer at all, as reflected by its state carrying none);
`Append(nullptr)` is identical to `AppendNull`; for any sequence of
appends starting from a fresh builder, `length` equals `null_count`. -/
theorem claim_C10_null_builder (s : NullState) :
    s.appendNull.1 = .ok () ∧
    s.appendNull.2.length = s.length + 1 ∧
    s.appendNull.2.null_count = s.null_count + 1 ∧
    (∀ t : NullState, t.appendNullptr = t.appendNull) ∧
    (s.length = s.null_count → s.appendNull.2.length = s.appendNull.2.null_count) ∧
    (∀ n : Nat,
      (Nat.iterate (fun t : NullState => t.appendNull.2) n NullState.empty).length =
      (Nat.iterate (fun t : NullState => t.appendNull.2) n NullState.empty).null_count)
    := by
  refine ⟨rfl, rfl, rfl, fun t => rfl, fun h => by
    show s.length + 1 = s.null_count + 1
    omega, ?_⟩
  intro n
  suffices hgen : ∀ (m : Nat) (t : NullState), t.length = t.null_count →
      ((Nat.iterate (fun t : NullState => t.appendNull.2) m t).length =
       (Nat.iterate (fun t : NullState => t.appendNull.2) m t).null_count) by
    exact hgen n NullState.empty rfl
  intro m
  induction m with
  | zero => intro t ht; exact ht
  | succ k ih =>
    intro t ht
    rw [Function.iterate_succ_apply]
    exact ih _ (by show t.length + 1 = t.null_count + 1; omega)

/-- Concrete instance of `claim_C10_null_builder` on a fresh null
builder. -/
theorem claim_C10_null_builder_witness :
    NullState.empty.appendNull.2.length = NullState.empty.appendNull.2.null_count :=
  (claim_C10_null_builder NullState.empty).2.2.2.2.1 rfl

/-- Claim C3: for every capacity argument `c`, the capacity check fails
with an `Invalid` error exactly when `c` is negative or smaller than the
current capacity, and succeeds otherwise; a successful `Resize` sets the
capacity to `c`, so `Resize` never reduces capacity, and a failed one
leaves the builder untouched. -/
theorem claim_C3_resize_never_shrinks (c old : Int) (s : ABCore) :
    ((checkCapacity c old).isInvalid = true ↔ (c < 0 ∨ c < old)) ∧
    (¬ (c < 0 ∨ c < old) → checkCapacity c old = .ok ()) ∧
    ((s.resize c).1 = .ok () →
      s.capacity ≤ (s.resize c).2.capacity ∧ (s.resize c).2.capacity = c.toNat) ∧
    ((s.resize c).1 ≠ .ok () →
      (s.resize c).1.isInvalid = true ∧ (s.resize c).2 = s) := by
  refine ⟨?_, ?_, ?_, ?_⟩
  · unfold checkCapacity
    by_cases h0 : c < 0
    · simp [h0, Status.isInvalid]
    · by_cases h1 : c < old
      · simp [h0, h1, Status.isInvalid]
      · simp [h0, h1, Status.isInvalid]
  · intro h
    push_neg at h
    unfold checkCapacity
    rw [if_neg (by omega), if_neg (by omega)]
  · intro h
    unfold ABCore.resize checkCapacity at h ⊢
    by_cases h0 : c < 0
    · simp [h0] at h
    · by_cases h1 : c < (s.capacity : Int)
      · simp [h0, h1] at h
      · simp only [h0, h1, if_false]
        exact ⟨by omega, by simp⟩
  · intro h
    unfold ABCore.resize checkCapacity at h ⊢
    by_cases h0 : c < 0
    · simp [h0, Status.isInvalid]
    · by_cases h1 : c < (s.capacity : Int)
      · simp [h0, h1, Status.isInvalid]
      · simp [h0, h1] at h

/-- Concrete instance of `claim_C3_resize_never_shrinks`: resizing a fresh
builder to capacity 5 succeeds and does not shrink. -/
theorem claim_C3_resize_never_shrinks_witness :
    (ABCore.mk 0 0 0 (fun _ => 0)).capacity ≤
      ((ABCore.mk 0 0 0 (fun _ => 0)).resize 5).2.capacity ∧
    ((ABCore.mk 0 0 0 (fun _ => 0)).resize 5).2.capacity = (5 : Int).toNat :=
  (claim_C3_resize_never_shrinks 5 0 (ABCore.mk 0 0 0 (fun _ => 0))).2.2.1 rfl

/-- Pending staging size of the adaptive integer builders
(builder.h line 475): `static constexpr int32_t pending_size_ = 1024`. -/
def pendingSize : Nat := 1024

/-- State of `arrow::internal::AdaptiveIntBuilderBase` and its two
subclasses (builder.h lines 440-584): the shared base state, the committed
data buffer (modelled element-indexed with its stored 64-bit value,
together with the current element width `int_size_`), and the fixed
1024-slot pending region (`pending_data_`, `pending_valid_`,
`pending_pos_`, `pending_has_nulls_`). -/
structure AdaptiveState where
  length : Nat
  null_count : Nat
  capacity : Nat
  bm : Nat → Nat
  intSize : Nat
  data : Nat → Nat
  pendingData : Nat → Nat
  pendingValid : Nat → Nat
  pendingPos : Nat
  pendingHasNulls : Bool

/-- Modelled from the spec (§4.5): the smallest width `w ∈ {1,2,4,8}`
whose unsigned range contains `v`. -/
def uintWidth (v : Nat) : Nat :=
  if v ≤ 2 ^ 8 - 1 then 1
  else if v ≤ 2 ^ 16 - 1 then 2
  else if v ≤ 2 ^ 32 - 1 then 4
  else 8

/-- Modelled from the spec (§4.5): the smallest width `w ∈ {1,2,4,8}`
whose two's-complement range contains `v`. -/
def intWidth (v : Int) : Nat :=
  if -(2 ^ 7) ≤ v ∧ v ≤ 2 ^ 7 - 1 then 1
  else if -(2 ^ 15) ≤ v ∧ v ≤ 2 ^ 15 - 1 then 2
  else if -(2 ^ 31) ≤ v ∧ v ≤ 2 ^ 31 - 1 then 4
  else 8

/-- The signed (two's-complement) reading of a stored 64-bit value. -/
def int64OfUInt64 (u : Nat) : Int :=
  if u < 2 ^ 63 then (u : Int) else (u : Int) - 2 ^ 64

/-- Modelled from the spec: `AdaptiveUIntBuilder::CommitPendingData` (§4.5;
its body is in `builder.cc`, which is not part of the source tree).  Drain
the pending region: widen `int_size_` to the minimum width holding every
pending value (never shrinking), reserve committed capacity, write the
pending values into the committed data, apply the pending validity flags to
the null bitmap and the null count, and clear the pending region.  Pool
failure is not modelled. -/
def AdaptiveState.commitU (s : AdaptiveState) : AdaptiveState :=
  let w := (List.range s.pendingPos).foldl
    (fun m j => max m (uintWidth (s.pendingData j))) s.intSize
  let newCap := if s.length + s.pendingPos ≤ s.capacity then s.capacity
                else max 32 (2 ^ Nat.clog 2 (s.length + s.pendingPos))
  let data := fun j => if s.length ≤ j ∧ j < s.length + s.pendingPos
                       then s.pendingData (j - s.length) else s.data j
  let core := ABCore.unsafeAppendToBitmapIter
    (ABCore.mk s.length s.null_count newCap s.bm)
    ((List.range s.pendingPos).map (fun j => s.pendingValid j != 0))
  { s with intSize := w, capacity := newCap, data := data,
           bm := core.bm, null_count := core.null_count, length := core.length,
           pendingPos := 0, pendingHasNulls := false }

/-- Modelled from the spec: `AdaptiveIntBuilder::CommitPendingData` (§4.5;
body in `builder.cc`): as `commitU` but the minimum width is computed from
the signed reading of the pending values, preserving sign. -/
def AdaptiveState.commitI (s : AdaptiveState) : AdaptiveState :=
  let w := (List.range s.pendingPos).foldl
    (fun m j => max m (intWidth (int64OfUInt64 (s.pendingData j)))) s.intSize
  let newCap := if s.length + s.pendingPos ≤ s.capacity then s.capacity
                else max 32 (2 ^ Nat.clog 2 (s.length + s.pendingPos))
  let data := fun j => if s.length ≤ j ∧ j < s.length + s.pendingPos
                       then s.pendingData (j - s.length) else s.data j
  let core := ABCore.unsafeAppendToBitmapIter
    (ABCore.mk s.length s.null_count newCap s.bm)
    ((List.range s.pendingPos).map (fun j => s.pendingValid j != 0))
  { s with intSize := w, capacity := newCap, data := data,
           bm := core.bm, null_count := core.null_count, length := core.length,
           pendingPos := 0, pendingHasNulls := false }

/-- `AdaptiveUIntBuilder::Append(uint64_t val)` (builder.h lines 492-501):
write the value and a set validity flag at the pending position, advance
the pending position, and commit exactly when it reaches 1024. -/
def AdaptiveState.appendU (s : AdaptiveState) (val : Nat) : AdaptiveState :=
  let s := { s with
    pendingData := fun j => if j = s.pendingPos then val else s.pendingData j,
    pendingValid := fun j => if j = s.pendingPos then 1 else s.pendingValid j,
    pendingPos := s.pendingPos + 1 }
  if pendingSize ≤ s.pendingPos then s.commitU else s

/-- `AdaptiveIntBuilder::Append(int64_t val)` (builder.h lines 542-553):
as the unsigned append, after `static_cast<uint64_t>(val)` (modelled as the
value modulo `2^64`). -/
def AdaptiveState.appendI (s : AdaptiveState) (val : Int) : AdaptiveState :=
  let v : Nat := (val % (2 ^ 64 : Int)).toNat
  let s := { s with
    pendingData := fun j => if j = s.pendingPos then v else s.pendingData j,
    pendingValid := fun j => if j = s.pendingPos then 1 else s.pendingValid j,
    pendingPos := s.pendingPos + 1 }
  if pendingSize ≤ s.pendingPos then s.commitI else s

/-- `AdaptiveIntBuilderBase::AppendNull` (builder.h lines 453-463), resolved
for the unsigned subclass: write value 0, validity flag 0 and
`pending_has_nulls_ = true`, advance the pending position, and commit
exactly when it reaches 1024. -/
def AdaptiveState.appendNullU (s : AdaptiveState) : AdaptiveState :=
  let s := { s with
    pendingData := fun j => if j = s.pendingPos then 0 else s.pendingData j,
    pendingValid := fun j => if j = s.pendingPos then 0 else s.pendingValid j,
    pendingHasNulls := true,
    pendingPos := s.pendingPos + 1 }
  if pendingSize ≤ s.pendingPos then s.commitU else s

/-- `AdaptiveIntBuilderBase::AppendNull` (builder.h lines 453-463), resolved
for the signed subclass. -/
def AdaptiveState.appendNullI (s : AdaptiveState) : AdaptiveState :=
  let s := { s with
    pendingData := fun j => if j = s.pendingPos then 0 else s.pendingData j,
    pendingValid := fun j => if j = s.pendingPos then 0 else s.pendingValid j,
    pendingHasNulls := true,
    pendingPos := s.pendingPos + 1 }
  if pendingSize ≤ s.pendingPos then s.commitI else s

/-- The committed (non-pending) observable part of an adaptive builder:
length, null count, capacity, bitmap, element width and committed data. -/
def AdaptiveState.committed (s : AdaptiveState) :
    Nat × Nat × Nat × (Nat → Nat) × Nat × (Nat → Nat) :=
  (s.length, s.null_count, s.capacity, s.bm, s.intSize, s.data)

/-- Claim C1: for the adaptive integer builders, every scalar `Append(v)`
and every `AppendNull` writes only into the fixed 1024-slot pending region
(`pending_data`, `pending_valid`, `pending_has_nulls`) and leaves the
committed state (length, null count, capacity, bitmap, width, data)
unchanged; `CommitPendingData` is invoked exactly when the pending position
reaches 1024 (observable: it drains the pending region back to position 0);
consequently, while the pending region is non-empty, the length and
capacity accessors do not yet reflect the pending entries. -/
theorem claim_C1_adaptive_pending_staging (s : AdaptiveState) (v : Nat) (w : Int)
    (h : s.pendingPos + 1 < pendingSize) :
    ((s.appendU v).committed = s.committed ∧
     (s.appendU v).pendingPos = s.pendingPos + 1 ∧
     (s.appendU v).pendingData =
       (fun j => if j = s.pendingPos then v else s.pendingData j) ∧
     (s.appendU v).pendingValid =
       (fun j => if j = s.pendingPos then 1 else s.pendingValid j) ∧
     (s.appendU v).pendingHasNulls = s.pendingHasNulls) ∧
    ((s.appendI w).committed = s.committed ∧
     (s.appendI w).pendingPos = s.pendingPos + 1 ∧
     (s.appendI w).pendingData =
       (fun j => if j = s.pendingPos then (w % (2 ^ 64 : Int)).toNat
                 else s.pendingData j) ∧
     (s.appendI w).pendingValid =
       (fun j => if j = s.pendingPos then 1 else s.pendingValid j) ∧
     (s.appendI w).pendingHasNulls = s.pendingHasNulls) ∧
    (s.appendNullU.committed = s.committed ∧
     s.appendNullU.pendingPos = s.pendingPos + 1 ∧
     s.appendNullU.pendingData =
       (fun j => if j = s.pendingPos then 0 else s.pendingData j) ∧
     s.appendNullU.pendingValid =
       (fun j => if j = s.pendingPos then 0 else s.pendingValid j) ∧
     s.appendNullU.pendingHasNulls = true) ∧
    (s.appendNullI.committed = s.committed ∧
     s.appendNullI.pendingPos = s.pendingPos + 1 ∧
     s.appendNullI.pendingHasNulls = true) ∧
    (∀ t : AdaptiveState, pendingSize ≤ t.pendingPos + 1 →
      (t.appendU v).pendingPos = 0 ∧ (t.appendI w).pendingPos = 0 ∧
      t.appendNullU.pendingPos = 0 ∧ t.appendNullI.pendingPos = 0) := by
  have hlt : ¬ (pendingSize ≤ s.pendingPos + 1) := by omega
  refine ⟨?_, ?_, ?_, ?_, ?_⟩
  · unfold AdaptiveState.appendU
    rw [if_neg hlt]
    exact ⟨rfl, rfl, rfl, rfl, rfl⟩
  · unfold AdaptiveState.appendI
    rw [if_neg hlt]
    exact ⟨rfl, rfl, rfl, rfl, rfl⟩
  · unfold AdaptiveState.appendNullU
    rw [if_neg hlt]
    exact ⟨rfl, rfl, rfl, rfl, rfl⟩
  · unfold AdaptiveState.appendNullI
    rw [if_neg hlt]
    exact ⟨rfl, rfl, rfl⟩
  · intro t ht
    refine ⟨?_, ?_, ?_, ?_⟩
    · unfold AdaptiveState.appendU
      rw [if_pos ht]
      rfl
    · unfold AdaptiveState.appendI
      rw [if_pos ht]
      rfl
    · unfold AdaptiveState.appendNullU
      rw [if_pos ht]
      rfl
    · unfold AdaptiveState.appendNullI
      rw [if_pos ht]
      rfl

/-- Concrete instance of `claim_C1_adaptive_pending_staging` on a fresh
adaptive builder. -/
theorem claim_C1_adaptive_pending_staging_witness :
    ((AdaptiveState.mk 0 0 0 (fun _ => 0) 1 (fun _ => 0) (fun _ => 0)
        (fun _ => 0) 0 false).appendU 5).committed =
      (AdaptiveState.mk 0 0 0 (fun _ => 0) 1 (fun _ => 0) (fun _ => 0)
        (fun _ => 0) 0 false).committed :=
  (claim_C1_adaptive_pending_staging
    (AdaptiveState.mk 0 0 0 (fun _ => 0) 1 (fun _ => 0) (fun _ => 0)
      (fun _ => 0) 0 false) 5 (-3)
    (by norm_num [pendingSize])).1.1

/-- State of `arrow::PrimitiveBuilder<T>` (builder.h lines 244-374): the
shared base state plus one data buffer of `T::c_type` elements (modelled
element-indexed; the `memset` of one slot becomes writing value 0). -/
structure PrimState where
  length : Nat
  null_count : Nat
  capacity : Nat
  bm : Nat → Nat
  data : Nat → Int

/-- Modelled from the spec: `ArrayBuilder::Reserve` for the primitive
builder (§4.1; its body is in `builder.cc`, which is not part of the
source tree): grow capacity to the next power of two with floor 32 when
needed; pool failure is not modelled here. -/
def PrimState.reserve (s : PrimState) (n : Nat) : PrimState :=
  if s.length + n ≤ s.capacity then s
  else { s with capacity := max 32 (2 ^ Nat.clog 2 (s.length + n)) }

/-- `PrimitiveBuilder<T>::AppendNull` (builder.h lines 266-271): reserve
one slot, `memset` the data slot at index `length_` to zero
(`sizeof(value_type)` zero bytes), then `UnsafeAppendToBitmap(false)`
(which increments `null_count_` and `length_`). -/
def PrimState.appendNull (s : PrimState) : Status × PrimState :=
  let s := s.reserve 1
  let s := { s with data := fun j => if j = s.length then 0 else s.data j }
  (.ok (), { s with null_count := s.null_count + 1, length := s.length + 1 })

theorem PrimState.reserve_length (s : PrimState) (n : Nat) :
    (s.reserve n).length = s.length := by
  unfold PrimState.reserve
  split <;> rfl

theorem PrimState.reserve_null_count (s : PrimState) (n : Nat) :
    (s.reserve n).null_count = s.null_count := by
  unfold PrimState.reserve
  split <;> rfl

theorem PrimState.reserve_bm (s : PrimState) (n : Nat) :
    (s.reserve n).bm = s.bm := by
  unfold PrimState.reserve
  split <;> rfl

theorem PrimState.reserve_data (s : PrimState) (n : Nat) :
    (s.reserve n).data = s.data := by
  unfold PrimState.reserve
  split <;> rfl

theorem PrimState.reserve_capacity (s : PrimState) (n : Nat) :
    s.length + n ≤ (s.reserve n).capacity := by
  unfold PrimState.reserve
  split
  · assumption
  · show s.length + n ≤ max 32 (2 ^ Nat.clog 2 (s.length + n))
    exact Nat.le_trans (Nat.le_pow_clog (by norm_num) _) (Nat.le_max_right _ _)

/-- Claim C6: `PrimitiveBuilder<T>::AppendNull` reserves one slot,
zero-initialises the data slot at index `length`, leaves the validity bit
of that index clear (the bit was zero by the builder's zero-initialisation
invariant and the append does not set it), and increments both
`null_count` and `length` by one. -/
theorem claim_C6_primitive_append_null (s : PrimState)
    (hTrail : getBit s.bm s.length = false) :
    s.appendNull.1 = .ok () ∧
    s.appendNull.2.length = s.length + 1 ∧
    s.appendNull.2.null_count = s.null_count + 1 ∧
    s.appendNull.2.data s.length = 0 ∧
    getBit s.appendNull.2.bm s.length = false ∧
    s.length + 1 ≤ s.appendNull.2.capacity := by
  have hlen : s.appendNull.2.length = (s.reserve 1).length + 1 := rfl
  have hnc : s.appendNull.2.null_count = (s.reserve 1).null_count + 1 := rfl
  have hdata : s.appendNull.2.data =
      (fun j => if j = (s.reserve 1).length then 0 else (s.reserve 1).data j) := rfl
  have hbm : s.appendNull.2.bm = (s.reserve 1).bm := rfl
  have hcap : s.appendNull.2.capacity = (s.reserve 1).capacity := rfl
  refine ⟨rfl, ?_, ?_, ?_, ?_, ?_⟩
  · rw [hlen, PrimState.reserve_length]
  · rw [hnc, PrimState.reserve_null_count]
  · rw [hdata]
    simp [PrimState.reserve_length]
  · rw [hbm, PrimState.reserve_bm]
    exact hTrail
  · rw [hcap]
    exact PrimState.reserve_capacity s 1

/-- Concrete instance of `claim_C6_primitive_append_null` on a fresh
primitive builder. -/
theorem claim_C6_primitive_append_null_witness :
    (PrimState.mk 0 0 0 (fun _ => 0) (fun _ => 0)).appendNull.2.data 0 = 0 ∧
    getBit (PrimState.mk 0 0 0 (fun _ => 0) (fun _ => 0)).appendNull.2.bm 0
      = false :=
  ⟨(claim_C6_primitive_append_null (PrimState.mk 0 0 0 (fun _ => 0) (fun _ => 0))
      (by simp [getBit])).2.2.2.1,
   (claim_C6_primitive_append_null (PrimState.mk 0 0 0 (fun _ => 0) (fun _ => 0))
      (by simp [getBit])).2.2.2.2.1⟩

/-- The 32-bit narrowing cast of a byte count, as in
`static_cast<int32_t>(num_bytes)` (builder.h lines 843 and 879). -/
def toInt32 (n : Nat) : Int :=
  if n % 2 ^ 32 < 2 ^ 31 then ((n % 2 ^ 32 : Nat) : Int)
  else ((n % 2 ^ 32 : Nat) : Int) - 2 ^ 32

/-- State of `arrow::BinaryBuilder` (builder.h lines 805-881): the shared
base state plus the `int32` offsets buffer builder (`offsets_builder_`) and
the `uint8` value data buffer builder (`value_data_builder_`). -/
structure BinState where
  length : Nat
  null_count : Nat
  capacity : Nat
  bm : Nat → Nat
  offsets : List Int
  valueData : List Nat

/-- `BinaryBuilder::UnsafeAppendNextOffset` (builder.h lines 877-880):
push the current value-data byte count, cast to `int32`, onto the offsets
buffer. -/
def BinState.unsafeAppendNextOffset (s : BinState) : BinState :=
  { s with offsets := s.offsets ++ [toInt32 s.valueData.length] }

/-- `BinaryBuilder::UnsafeAppend(const uint8_t* value, int32_t length)`
(builder.h lines 827-831): push the next offset, append the value bytes,
then `UnsafeAppendToBitmap(true)` (set validity bit, increment length). -/
def BinState.unsafeAppend (s : BinState) (value : List Nat) : BinState :=
  let s := s.unsafeAppendNextOffset
  let s := { s with valueData := s.valueData ++ value }
  { s with bm := setBit s.bm s.length, length := s.length + 1 }

/-- `BinaryBuilder::UnsafeAppendNull` (builder.h lines 841-845): push the
current value-data byte count as the next offset (a zero-length slot), then
`UnsafeAppendToBitmap(false)` (increment `null_count_` and `length_`). -/
def BinState.unsafeAppendNull (s : BinState) : BinState :=
  let s := { s with offsets := s.offsets ++ [toInt32 s.valueData.length] }
  { s with null_count := s.null_count + 1, length := s.length + 1 }

/-- A freshly constructed `BinaryBuilder`.  Modelled from the spec for the
constructor (in `builder.cc`, not part of the source tree): the two
embedded typed buffer builders start empty (§4.6 has `FinishInternal`, not
the constructor, write the closing offset). -/
def BinState.emptyBuilder : BinState :=
  { length := 0, null_count := 0, capacity := 0, bm := fun _ => 0,
    offsets := [], valueData := [] }

/-- Counterexample to claim C5 as stated: after one `UnsafeAppendNull` on
a fresh binary builder the offsets buffer holds 1 entry while
`length + 1 = 2` — during building the offsets buffer has exactly `length`
entries, not `length + 1`. -/
theorem claim_C5_offsets_counterexample :
    ¬ (BinState.emptyBuilder.unsafeAppendNull.offsets.length =
       BinState.emptyBuilder.unsafeAppendNull.length + 1) := by
  decide

/-- Claim C5 (amended): `BinaryBuilder`/`StringBuilder` `AppendNull`
pushes the current value-data byte length as the next offset (creating a
zero-length slot), leaves the validity bit of the new element clear, and
increments `length` by one; and after every logical append (value or null)
the offsets builder holds exactly `length` entries — one start offset per
element, the closing offset being written only by `FinishInternal`. -/
theorem claim_C5_binary_append_null (s : BinState) (value : List Nat)
    (hTrail : getBit s.bm s.length = false) :
    s.unsafeAppendNull.offsets = s.offsets ++ [toInt32 s.valueData.length] ∧
    s.unsafeAppendNull.valueData = s.valueData ∧
    s.unsafeAppendNull.length = s.length + 1 ∧
    s.unsafeAppendNull.null_count = s.null_count + 1 ∧
    getBit s.unsafeAppendNull.bm s.length = false ∧
    s.unsafeAppendNull.offsets.length = s.offsets.length + 1 ∧
    (s.unsafeAppend value).offsets.length = s.offsets.length + 1 ∧
    (s.unsafeAppend value).length = s.length + 1 ∧
    (s.offsets.length = s.length →
      s.unsafeAppendNull.offsets.length = s.unsafeAppendNull.length ∧
      (s.unsafeAppend value).offsets.length = (s.unsafeAppend value).length) := by
  have hoffN : s.unsafeAppendNull.offsets =
      s.offsets ++ [toInt32 s.valueData.length] := rfl
  have hoffA : (s.unsafeAppend value).offsets =
      s.offsets ++ [toInt32 s.valueData.length] := rfl
  have hlenN : s.unsafeAppendNull.length = s.length + 1 := rfl
  have hlenA : (s.unsafeAppend value).length = s.length + 1 := rfl
  refine ⟨hoffN, rfl, hlenN, rfl, hTrail, ?_, ?_, hlenA, ?_⟩
  · rw [hoffN, List.length_append]
    rfl
  · rw [hoffA, List.length_append]
    rfl
  · intro hinv
    constructor
    · rw [hoffN, List.length_append, hlenN, hinv]
      rfl
    · rw [hoffA, List.length_append, hlenA, hinv]
      rfl

/-- Concrete instance of `claim_C5_binary_append_null` on a fresh binary
builder. -/
theorem claim_C5_binary_append_null_witness :
    BinState.emptyBuilder.unsafeAppendNull.offsets.length =
      BinState.emptyBuilder.unsafeAppendNull.length :=
  ((claim_C5_binary_append_null BinState.emptyBuilder [7]
      (by decide)).2.2.2.2.2.2.2.2 rfl).1

/-- State of `arrow::ListBuilder` (builder.h lines 764-798): the shared
base state, the `int32` offsets buffer and the child value builder's
current length (the child builder's own content is opaque to this claim). -/
structure ListState where
  length : Nat
  null_count : Nat
  capacity : Nat
  bm : Nat → Nat
  offsets : List Int
  childLength : Nat

/-- Modelled from the spec: `ListBuilder::Append(bool is_valid)` (§4.8;
its body is in `builder.cc`, which is not part of the source tree): push
the child builder's current length as the next offset, append `is_valid`
to the validity bitmap, increment length.  Pool failure is not modelled. -/
def ListState.append (s : ListState) (isValid : Bool) : ListState :=
  let s := { s with offsets := s.offsets ++ [toInt32 s.childLength] }
  if isValid then { s with bm := setBit s.bm s.length, length := s.length + 1 }
  else { s with null_count := s.null_count + 1, length := s.length + 1 }

/-- `ListBuilder::AppendNull` (builder.h line 788): `return Append(false)`. -/
def ListState.appendNull (s : ListState) : ListState := s.append false

/-- State of `arrow::StructBuilder` (builder.h lines 1011-1046): only the
shared base state matters here (field builders are appended independently
by the caller). -/
structure StructState where
  length : Nat
  null_count : Nat
  capacity : Nat
  bm : Nat → Nat

/-- `StructBuilder::Append(bool is_valid)` (builder.h lines 1030-1034):
`Reserve(1)` (modelled from the spec §4.1, pool failure not modelled), then
`UnsafeAppendToBitmap(is_valid)`. -/
def StructState.append (s : StructState) (isValid : Bool) : StructState :=
  let s := if s.length + 1 ≤ s.capacity then s
           else { s with capacity := max 32 (2 ^ Nat.clog 2 (s.length + 1)) }
  if isValid then { s with bm := setBit s.bm s.length, length := s.length + 1 }
  else { s with null_count := s.null_count + 1, length := s.length + 1 }

/-- `StructBuilder::AppendNull` (builder.h line 1036):
`return Append(false)`. -/
def StructState.appendNull (s : StructState) : StructState := s.append false

/-- Claim C8: for `ListBuilder` and likewise `StructBuilder`, `AppendNull`
is extensionally equal to `Append(false)`: on every builder state it
produces the same resulting state (the header defines it as exactly
`return Append(false)`, so the statuses agree as well). -/
theorem claim_C8_append_null_is_append_false :
    (∀ s : ListState, s.appendNull = s.append false) ∧
    (∀ s : StructState, s.appendNull = s.append false) :=
  ⟨fun _ => rfl, fun _ => rfl⟩

/-- State of `arrow::FixedSizeBinaryBuilder` (builder.h lines 919-985):
the shared base state, the byte width, and the embedded `BufferBuilder`
(`byte_builder_`: its bytes and its capacity in bytes).  `allocFails`
models the memory pool: when true, any allocation request fails with
`OutOfMemory`. -/
structure FSBState where
  length : Nat
  null_count : Nat
  capacity : Nat
  bm : Nat → Nat
  byteWidth : Nat
  bytes : List Nat
  byteCap : Nat
  allocFails : Bool

/-- Modelled from the spec: `ArrayBuilder::Reserve` for the fixed-size
binary builder (§4.1; its body is in `builder.cc`, which is not part of
the source tree): a no-op when capacity already suffices, otherwise an
allocation that grows capacity (next power of two, floor 32) or fails with
`OutOfMemory` when the pool refuses; on failure the state is unchanged. -/
def FSBState.reserve (s : FSBState) (n : Nat) : Status × FSBState :=
  if s.length + n ≤ s.capacity then (.ok (), s)
  else if s.allocFails then (.error .outOfMemory, s)
  else (.ok (), { s with capacity := max 32 (2 ^ Nat.clog 2 (s.length + n)) })

/-- Modelled from the spec: `BufferBuilder::Append(data, n)` (§2 component
1; `buffer.h` is not part of the source tree): append `n` bytes read from
`value`, growing the byte buffer when needed or failing with `OutOfMemory`
when the pool refuses; on failure the buffer is unchanged. -/
def FSBState.byteAppend (s : FSBState) (value : Nat → Nat) (n : Nat) :
    Status × FSBState :=
  if s.bytes.length + n ≤ s.byteCap then
    (.ok (), { s with bytes := s.bytes ++ (List.range n).map value })
  else if s.allocFails then (.error .outOfMemory, s)
  else (.ok (), { s with byteCap := max 32 (2 ^ Nat.clog 2 (s.bytes.length + n)),
                         bytes := s.bytes ++ (List.range n).map value })

/-- `FixedSizeBinaryBuilder::Append(const uint8_t* value)` (builder.h
lines 924-928): `Reserve(1)`, then `UnsafeAppendToBitmap(true)` (which
sets the validity bit at `length_` and increments `length_`), then
`byte_builder_.Append(value, byte_width_)`, whose status is returned. -/
def FSBState.append (s : FSBState) (value : Nat → Nat) : Status × FSBState :=
  match s.reserve 1 with
  | (.error e, s) => (.error e, s)
  | (.ok _, s) =>
    let s := { s with bm := setBit s.bm s.length, length := s.length + 1 }
    s.byteAppend value s.byteWidth

theorem FSBState.reserve_error_id (s : FSBState) (n : Nat)
    (h : (s.reserve n).1 ≠ .ok ()) : (s.reserve n).2 = s := by
  unfold FSBState.reserve at h ⊢
  by_cases h1 : s.length + n ≤ s.capacity
  · rw [if_pos h1] at h
    exact absurd rfl h
  · rw [if_neg h1] at h ⊢
    by_cases h2 : s.allocFails = true
    · rw [if_pos h2]
    · rw [if_neg h2] at h
      exact absurd rfl h

theorem FSBState.byteAppend_error_id (s : FSBState) (value : Nat → Nat) (n : Nat)
    (h : (s.byteAppend value n).1 ≠ .ok ()) : (s.byteAppend value n).2 = s := by
  unfold FSBState.byteAppend at h ⊢
  by_cases h1 : s.bytes.length + n ≤ s.byteCap
  · rw [if_pos h1] at h
    exact absurd rfl h
  · rw [if_neg h1] at h ⊢
    by_cases h2 : s.allocFails = true
    · rw [if_pos h2]
    · rw [if_neg h2] at h
      exact absurd rfl h

theorem FSBState.reserve_committed (s : FSBState) (n : Nat) :
    (s.reserve n).2.length = s.length ∧
    (s.reserve n).2.null_count = s.null_count ∧
    (s.reserve n).2.bm = s.bm ∧
    (s.reserve n).2.bytes = s.bytes ∧
    (s.reserve n).2.byteWidth = s.byteWidth := by
  unfold FSBState.reserve
  split
  · exact ⟨rfl, rfl, rfl, rfl, rfl⟩
  · split
    · exact ⟨rfl, rfl, rfl, rfl, rfl⟩
    · exact ⟨rfl, rfl, rfl, rfl, rfl⟩

/-- Counterexample to claim C2 as stated: with element capacity already
reserved but an empty byte buffer and a pool that refuses allocations,
`FixedSizeBinaryBuilder::Append` returns an error yet the builder's length
has already been incremented (and the validity bit set) — a partial append
is observable through the accessors. -/
theorem claim_C2_partial_append_counterexample :
    ((FSBState.mk 0 0 32 (fun _ => 0) 4 [] 0 true).append (fun _ => 7)).1 =
      .error .outOfMemory ∧
    ((FSBState.mk 0 0 32 (fun _ => 0) 4 [] 0 true).append (fun _ => 7)).2.length =
      (FSBState.mk 0 0 32 (fun _ => 0) 4 [] 0 true).length + 1 := by
  constructor
  · rfl
  · rfl

/-- Claim C2 (amended): an error status from a modelled fallible builder
operation leaves the observable state exactly as before the call, with one
exception forced by the code: `FixedSizeBinaryBuilder::Append` sets the
validity bit and increments `length` before the fallible byte append, so
when `Reserve` fails the state is untouched, but when the byte append
fails the error is returned with `length` already incremented, the
validity bit set, and the data bytes and null count unchanged. -/
theorem claim_C2_error_atomicity_amended (s : FSBState) (value : Nat → Nat) :
    (∀ (t : ABCore) (c : Int), (t.resize c).1 ≠ .ok () → (t.resize c).2 = t) ∧
    ((s.reserve 1).1 ≠ .ok () → s.append value = ((s.reserve 1).1, s)) ∧
    ((s.reserve 1).1 = .ok () → (s.append value).1 ≠ .ok () →
      (s.append value).2.length = s.length + 1 ∧
      (s.append value).2.null_count = s.null_count ∧
      (s.append value).2.bytes = s.bytes ∧
      getBit (s.append value).2.bm s.length = true) := by
  refine ⟨?_, ?_, ?_⟩
  · intro t c h
    unfold ABCore.resize at h ⊢
    cases hc : checkCapacity c t.capacity with
    | error e => rfl
    | ok u => rw [hc] at h; exact absurd rfl h
  · intro h
    have hid := FSBState.reserve_error_id s 1 h
    unfold FSBState.append
    rcases hrs : s.reserve 1 with ⟨st, s2⟩
    rw [hrs] at h hid
    cases st with
    | error e =>
      simp only at h hid ⊢
      rw [hid]
    | ok u => exact absurd rfl h
  · intro hok hfail
    rcases hrs : s.reserve 1 with ⟨st, s2⟩
    rw [hrs] at hok
    have hst : st = .ok () := hok
    subst hst
    have hcomm := FSBState.reserve_committed s 1
    rw [hrs] at hcomm
    obtain ⟨hL, hN, hB, hY, hW⟩ := hcomm
    have happ : s.append value =
        (FSBState.mk (s2.length + 1) s2.null_count s2.capacity
          (setBit s2.bm s2.length) s2.byteWidth s2.bytes s2.byteCap
          s2.allocFails).byteAppend value s2.byteWidth := by
      unfold FSBState.append
      rw [hrs]
    rw [happ] at hfail ⊢
    have hid := FSBState.byteAppend_error_id _ value s2.byteWidth hfail
    rw [hid]
    simp only at hL hN hB hY ⊢
    refine ⟨by rw [hL], by rw [hN], by rw [hY], ?_⟩
    rw [hB, hL, getBit_setBit]
    simp

/-- Concrete instance of `claim_C2_error_atomicity_amended`: the byte
append fails on a fresh builder with reserved element capacity, and the
error surfaces with the length already incremented. -/
theorem claim_C2_error_atomicity_amended_witness :
    ((FSBState.mk 0 0 32 (fun _ => 0) 4 [] 0 true).append (fun _ => 7)).2.bytes =
      (FSBState.mk 0 0 32 (fun _ => 0) 4 [] 0 true).bytes ∧
    getBit ((FSBState.mk 0 0 32 (fun _ => 0) 4 [] 0 true).append
        (fun _ => 7)).2.bm 0 = true :=
  ⟨((claim_C2_error_atomicity_amended (FSBState.mk 0 0 32 (fun _ => 0) 4 [] 0 true)
      (fun _ => 7)).2.2 rfl (fun hcon => Except.noConfusion hcon)).2.2.1,
   ((claim_C2_error_atomicity_amended (FSBState.mk 0 0 32 (fun _ => 0) 4 [] 0 true)
      (fun _ => 7)).2.2 rfl (fun hcon => Except.noConfusion hcon)).2.2.2⟩

end ArrowBuilder
